import Mathlib

/-!
Verification development for the whatsapp-me repository.

The definitions below are a shallow embedding of the core of the system:
the message intake gate, the photo-flood detector, the event fingerprint
and dedup store, the group-metadata cache with its retrying fetch, and the
LLM-response handling of the OpenAI service.  Pure functions of the
TypeScript source are translated into Lean functions; stateful code is
given explicit state passing; timestamps are integers in milliseconds;
fallible steps return Option.
-/

namespace WhatsappMe

/-! ## String utilities

JavaScript `String.prototype.includes` is a substring test; Baileys
`isJidGroup` is a suffix test against "@g.us".  Both are embedded as
character-list scans. -/

/-- Boolean substring test on character lists: true when `needle` occurs
contiguously inside `hay` (the empty needle occurs everywhere), matching
JavaScript `hay.includes(needle)`. -/
def containsSubAux (needle : List Char) : List Char → Bool
  | [] => needle.isEmpty
  | c :: rest => needle.isPrefixOf (c :: rest) || containsSubAux needle rest

/-- JavaScript `hay.includes(needle)`. -/
def containsSub (needle hay : String) : Bool :=
  containsSubAux needle.data hay.data

/-- Boolean suffix test, via reversal and `List.isPrefixOf`. -/
def strEndsWith (s suf : String) : Bool :=
  suf.data.reverse.isPrefixOf s.data.reverse

/-! ## Data model

`EventDetails` is the external LLM contract consumed by the client
(src/openai-service.ts, interface EventDetails): every string field is
nullable, embedded as `Option String`. -/

structure EventDetails where
  isEvent : Bool
  summary : Option String
  title : Option String
  date : Option String
  time : Option String
  location : Option String
  description : Option String
  startDateISO : Option String
  endDateISO : Option String
deriving DecidableEq

/-- JavaScript truthiness of a nullable string: `null`/`undefined` and the
empty string are falsy, every other string is truthy. -/
def truthy : Option String → Bool
  | none => false
  | some s => !s.isEmpty

/-! ## Event fingerprint (dedup store)

Modelled from the spec: `generateEventFingerprint`, `isEventAlreadyCreated`
and `markEventAsCreated` belong to the dedup store of the client module;
that code is absent from the provided sources (only the tests in
src/__tests__/duplicate-detection reference it), so it is modelled from
spec section 4.3: the fingerprint is a deterministic composite key over
the lowercased-trimmed title, the startDateISO exactly as given, and the
lowercased-trimmed location, with missing optional fields mapped to a
fixed empty placeholder.  The spec fixes no concrete string encoding of
the composite key, so the key is modelled as the normalized triple
itself. -/

/-- Whitespace recognized by the trim step of the normalization. -/
def trimWsChar (c : Char) : Bool :=
  c = ' ' || c = '\t' || c = '\n' || c = '\r'

/-- Modelled from the spec: normalization applied to title and location
before keying — trim surrounding whitespace and lowercase the string
(character-list implementation, so that it evaluates by reduction). -/
def normToken (s : String) : String :=
  String.mk
    (((s.data.dropWhile trimWsChar).reverse.dropWhile trimWsChar).reverse.map
      Char.toLower)

/-- Modelled from the spec: `generateEventFingerprint(event)` — the
composite dedup key `(lowercased-trimmed title, startDateISO as given,
lowercased-trimmed location or empty placeholder)`.  Null fields become
the empty placeholder rather than an error. -/
def generateEventFingerprint (e : EventDetails) : String × String × String :=
  (normToken (e.title.getD ""), e.startDateISO.getD "", normToken (e.location.getD ""))

/-- Modelled from the spec: the dedup store is the set of fingerprints of
events already dispatched, kept here as a list of keys. -/
abbrev Fingerprint : Type := String × String × String

/-- Modelled from the spec: `isEventAlreadyCreated(event)` — fingerprint
membership in the current record set. -/
def isEventAlreadyCreated (store : List Fingerprint) (e : EventDetails) : Bool :=
  decide (generateEventFingerprint e ∈ store)

/-- Modelled from the spec: `markEventAsCreated(event)` — insert the
fingerprint if not already present (idempotent). -/
def markEventAsCreated (store : List Fingerprint) (e : EventDetails) : List Fingerprint :=
  if isEventAlreadyCreated store e then store
  else store ++ [generateEventFingerprint e]

/-! ## Photo-flood detector

Modelled from the spec: `trackImageMessage` and `isPhotoFlood` belong to
the client module; that code is absent from the provided sources (only the
tests in src/__tests__/whatsapp-client.test.ts lines 359-476 exercise it),
so it is modelled from spec section 4.2 and the README: a per-chat sliding
window (30 seconds) of image-arrival records; flood means at least 3
records in the window of which at least 70 percent have no caption.
Timestamps are milliseconds. -/

structure ImageArrivalRecord where
  timestamp : Int
  hasCaption : Bool
deriving DecidableEq

/-- The sliding-window size, 30 seconds in milliseconds. -/
def floodWindowMs : Int := 30000

/-- Modelled from the spec: drop records older than the window; a record
is kept exactly when its timestamp is at least `now - windowSize`. -/
def pruneWindow (now : Int) (rs : List ImageArrivalRecord) : List ImageArrivalRecord :=
  rs.filter (fun r => decide (now - r.timestamp ≤ floodWindowMs))

/-- Per-chat state of the detector: chat id to its record list. -/
def FloodState : Type := String → List ImageArrivalRecord

/-- Modelled from the spec: `trackImageMessage(chatId, hasCaption)` —
prune the chat window, then append a record stamped `now`. -/
def trackImageMessage (st : FloodState) (chatId : String) (hasCaption : Bool)
    (now : Int) : FloodState :=
  fun c => if c = chatId
    then pruneWindow now (st chatId) ++ [⟨now, hasCaption⟩]
    else st c

/-- Modelled from the spec: `isPhotoFlood(chatId)` — true when the current
window holds at least 3 records and at least 70 percent of them have no
caption (10 times the no-caption count is at least 7 times the count). -/
def isPhotoFlood (st : FloodState) (chatId : String) (now : Int) : Bool :=
  let w := pruneWindow now (st chatId)
  decide (3 ≤ w.length) &&
    decide (7 * w.length ≤ 10 * (w.filter (fun r => !r.hasCaption)).length)

/-! ## Conversation history (OpenAIService.addMessageToHistory)

From src (part_002 lines 102-122): the per-chat history list gets the new
message appended, and when its length exceeds MAX_HISTORY_LENGTH = 5 it is
replaced by `history.slice(-5)`, the last five entries. -/

/-- MAX_HISTORY_LENGTH of the OpenAIService. -/
def maxHistoryLength : Nat := 5

/-- `addMessageToHistory` for one chat: append, then keep only the last
five entries when the length exceeds five (`slice(-5)` is `drop (n-5)`). -/
def addMessageToHistory (history : List String) (message : String) : List String :=
  let h := history ++ [message]
  if maxHistoryLength < h.length then h.drop (h.length - maxHistoryLength) else h

/-! ## Group metadata cache (src/whatsapp-client.ts)

`fetchGroupMetadataWithRetry` (lines 196-243) and `loadCacheFromFile`
(lines 161-191) are embedded below.  The external `socket.groupMetadata`
call is an oracle `Nat → FetchOutcome` giving the outcome of the fetch
performed on each loop iteration; `setTimeout` waits are recorded as a
list of delays in milliseconds. -/

structure GroupMetadata where
  id : String
  subject : String
deriving DecidableEq

/-- Outcome of one call to the external `socket.groupMetadata`: either a
descriptor, or an error carrying the optional numeric `data` field and the
message string that the catch block inspects. -/
inductive FetchOutcome where
  | success (m : GroupMetadata)
  | failure (data : Option Nat) (msg : String)
deriving DecidableEq

/-- The rate-limit test of the catch block:
`err.data === 429 || err.message?.includes("rate-overlimit")`. -/
def isRateLimitErr (data : Option Nat) (msg : String) : Bool :=
  data == some 429 || containsSub "rate-overlimit" msg

/-- Result of `fetchGroupMetadataWithRetry`: the returned descriptor (or
null), the backoff delays slept in milliseconds, and how many external
fetch calls were made. -/
structure RetryResult where
  result : Option GroupMetadata
  delays : List Nat
  attemptsUsed : Nat
deriving DecidableEq

/-- The retry loop body of `fetchGroupMetadataWithRetry`, one constructor
application per loop iteration.  `fuel` only bounds the recursion and is
chosen at the call site as `maxRetries + 1`, which exceeds the number of
iterations (`attempt` increases by one per iteration and the loop exits
once `attempt < maxRetries` fails), so the fuel-exhaustion branch is
unreachable; both exits return null as the code does after the loop. -/
def fetchRetryAux (cache : Option GroupMetadata) (hasSocket : Bool)
    (maxRetries : Nat) (oracle : Nat → FetchOutcome) :
    Nat → Nat → RetryResult
  | _, 0 => ⟨none, [], 0⟩
  | attempt, fuel + 1 =>
    if attempt < maxRetries then
      match cache with
      | some m => ⟨some m, [], 0⟩
      | none =>
        if hasSocket then
          match oracle attempt with
          | .success m => ⟨some m, [], 1⟩
          | .failure d msg =>
            if isRateLimitErr d msg then
              let r := fetchRetryAux cache hasSocket maxRetries oracle (attempt + 1) fuel
              if attempt < maxRetries - 1 then
                ⟨r.result, 2 ^ (attempt + 1) * 1000 :: r.delays, r.attemptsUsed + 1⟩
              else
                ⟨r.result, r.delays, r.attemptsUsed + 1⟩
            else
              ⟨none, [], 1⟩
        else ⟨none, [], 0⟩
    else ⟨none, [], 0⟩

/-- `fetchGroupMetadataWithRetry(groupId, maxRetries)`: starts the loop at
attempt 0.  The in-memory cache entry for the group is `cache` (checked at
the top of every iteration; it only changes on a successful fetch, which
returns immediately, so it is constant during the call). -/
def fetchGroupMetadataWithRetry (cache : Option GroupMetadata) (hasSocket : Bool)
    (oracle : Nat → FetchOutcome) (maxRetries : Nat) : RetryResult :=
  fetchRetryAux cache hasSocket maxRetries oracle 0 (maxRetries + 1)

/-- A persisted cache entry: the descriptor and the `savedAt` stamp. -/
structure PersistedCacheData where
  data : GroupMetadata
  savedAt : Int
deriving DecidableEq

/-- Max persisted age accepted by `loadCacheFromFile`: 24 hours in ms. -/
def maxPersistedAgeMs : Int := 24 * 60 * 60 * 1000

/-- `loadCacheFromFile` at time `now`: `none` stands for a missing file or
one whose contents fail to parse (the catch block logs and leaves the
cache empty); otherwise every entry with `now - savedAt < maxAge` is set
in the in-memory cache and the rest are discarded. -/
def loadCacheFromFile (now : Int)
    (file : Option (List (String × PersistedCacheData))) :
    List (String × GroupMetadata) :=
  match file with
  | none => []
  | some entries =>
    (entries.filter (fun kv => decide (now - kv.2.savedAt < maxPersistedAgeMs))).map
      (fun kv => (kv.1, kv.2.data))

/-- In-memory cache lookup (`groupCache.get(key)`). -/
def cacheGet (cache : List (String × GroupMetadata)) (key : String) :
    Option GroupMetadata :=
  (cache.find? (fun kv => kv.1 == key)).map (fun kv => kv.2)

/-! ## Message intake gate (src/whatsapp-client.ts, handleIncomingMessage)

Lines 450-523: the early-return filter pipeline in front of the LLM
analysis call.  A Baileys message is embedded by the fields that the gate
reads: whether `message.message` is present, the `remoteJid`, the `fromMe`
flag, and the content as classified by `getContentType` — a text body for
`conversation`/`extendedTextMessage`, a caption plus a download-succeeded
flag for `imageMessage` (a failed download leaves `imageBase64` null but
keeps the caption), and `other` for every other content type, which the
gate rejects before reading any text. -/

inductive MsgContent where
  | conversation (text : String)
  | extendedText (text : String)
  | image (caption : String) (downloaded : Bool)
  | other
deriving DecidableEq

structure WAMessage where
  hasMessage : Bool
  remoteJid : Option String
  fromMe : Bool
  content : MsgContent
deriving DecidableEq

/-- Baileys `isJidGroup`: the jid ends with the group suffix. -/
def isJidGroup (jid : String) : Bool := strEndsWith jid "@g.us"

/-- The event-summary markers whose presence in the text makes the gate
drop the message to avoid re-ingesting the bot output. -/
def eventSummaryMarkers : List String :=
  ["Event Summary:", "Event details", "פרטי האירוע:"]

/-- Text extracted by the gate: the body for text messages, the caption
for image messages, nothing for other content types. -/
def extractedText : MsgContent → String
  | .conversation t => t
  | .extendedText t => t
  | .image c _ => c
  | .other => ""

/-- Whether an image payload is available (`imageBase64` non-null). -/
def extractedImage : MsgContent → Bool
  | .image _ downloaded => downloaded
  | _ => false

/-- The `!messageText.trim()` test: the text is blank exactly when every
character is whitespace, so that trimming leaves the falsy empty
string. -/
def isBlankText (s : String) : Bool := s.data.all trimWsChar

/-- `handleIncomingMessage` up to the analysis dispatch: true exactly when
the message survives every early return and reaches
`addMessageToHistory` / `processMessageForEvents`. -/
def reachesAnalysis (msg : WAMessage) : Bool :=
  if !msg.hasMessage then false
  else match msg.remoteJid with
  | none => false
  | some chatId =>
    let isGroup := isJidGroup chatId
    let isSelfChat := msg.fromMe && !isGroup
    if !isGroup && !isSelfChat then false
    else if isGroup && msg.fromMe then false
    else match msg.content with
    | .other => false
    | c =>
      let messageText := extractedText c
      let hasImage := extractedImage c
      if isBlankText messageText && !hasImage then false
      else if eventSummaryMarkers.any (fun m => containsSub m messageText) then false
      else true

/-! ## Post-analysis dispatch loop (src/whatsapp-client.ts)

`processMessageForEvents`, lines 680-715: when the analysis has events,
each event with truthy `isEvent` and `summary` is considered; it is
formatted (and collected into `formattedMessages`) only when `title` and
`startDateISO` are both truthy, and in that case it is also sent to the
target group when sending is enabled and a target group id is known.
`MultiEventResult` is the analysis value `{hasEvents, events}`.  Formatted
messages are represented by the event they were formatted from (the
locale-dependent string rendering of `formatEventMessage` is outside this
embedding). -/

structure MultiEventResult where
  hasEvents : Bool
  events : List EventDetails
deriving DecidableEq

/-- The `for (const event of analysis.events)` body: first component the
events pushed to `formattedMessages`, second the events passed to
`sendEventToGroup`. -/
def processEventsLoop (targetGroupId : Option String) (sendToWhatsApp : Bool) :
    List EventDetails → List EventDetails × List EventDetails
  | [] => ([], [])
  | e :: rest =>
    let (fmt, sent) := processEventsLoop targetGroupId sendToWhatsApp rest
    if e.isEvent && truthy e.summary then
      if truthy e.title && truthy e.startDateISO then
        (e :: fmt, if sendToWhatsApp && targetGroupId.isSome then e :: sent else sent)
      else (fmt, sent)
    else (fmt, sent)

/-- The dispatch part of `processMessageForEvents`: the loop runs only
when `analysis.hasEvents && analysis.events.length > 0`. -/
def processAnalysisResult (targetGroupId : Option String) (sendToWhatsApp : Bool)
    (analysis : MultiEventResult) : List EventDetails × List EventDetails :=
  if analysis.hasEvents && decide (0 < analysis.events.length) then
    processEventsLoop targetGroupId sendToWhatsApp analysis.events
  else ([], [])

/-! ## Dedup-guarded dispatch (spec section 4.4 step 5)

Modelled from the spec: the post-analysis dedup step — consulting the
dedup store before dispatching and marking the event afterwards — is part
of the client-module version that is absent from the provided sources
(only the tests in part_006 reference the store), so the guarded loop is
modelled from spec sections 4.3 and 4.4: for each analysed event that
passes the dispatch guards, the store is consulted; only events not
already created are dispatched, and each dispatched event is then marked
as created.  The store is threaded through a whole sequence of processed
messages. -/

/-- Modelled from the spec: one post-analysis pass over the events of a
single message, returning the updated store and the dispatched events. -/
def dedupDispatchLoop (store : List Fingerprint) :
    List EventDetails → List Fingerprint × List EventDetails
  | [] => (store, [])
  | e :: rest =>
    if e.isEvent && truthy e.summary && truthy e.title && truthy e.startDateISO
        && !isEventAlreadyCreated store e then
      ((dedupDispatchLoop (markEventAsCreated store e) rest).1,
        e :: (dedupDispatchLoop (markEventAsCreated store e) rest).2)
    else dedupDispatchLoop store rest

/-- Modelled from the spec: a sequence of processed messages, each
contributing its analysed event list; the dedup store persists across
messages and all dispatches are collected in order. -/
def dedupDispatchRun (store : List Fingerprint) :
    List (List EventDetails) → List Fingerprint × List EventDetails
  | [] => (store, [])
  | batch :: batches =>
    ((dedupDispatchRun (dedupDispatchLoop store batch).1 batches).1,
      (dedupDispatchLoop store batch).2 ++
        (dedupDispatchRun (dedupDispatchLoop store batch).1 batches).2)

/-! ## Chat allowlist gate (part_002, OpenAIService)

`isChatAllowed` (lines 92-97) and the front of `analyzeMessage`
(lines 136-146): when ALLOWED_CHAT_NAMES is non-empty, analysis is skipped
with the empty result unless some configured name occurs as a substring of
the chat name (`chatName || chatId`, so the chat id when the name is the
empty string).  The LLM call itself is abstracted as the value `llm` it
would return; the Bool records whether the call was made. -/

/-- `isChatAllowed(chatName)`. -/
def isChatAllowed (allowedChatNames : List String) (chatName : String) : Bool :=
  if allowedChatNames.length = 0 then true
  else allowedChatNames.any (fun name => containsSub name chatName)

/-- The allowlist gate of `analyzeMessage`: returns the result together
with whether the LLM was invoked. -/
def analyzeMessageGate (allowedChatNames : List String) (chatId chatName : String)
    (llm : MultiEventResult) : MultiEventResult × Bool :=
  if !isChatAllowed allowedChatNames (if chatName = "" then chatId else chatName) then
    (⟨false, []⟩, false)
  else (llm, true)

/-! ## JSON values and parsing (for OpenAIService.analyzeMessage)

The response-handling block of `analyzeMessage` (part_002 lines 267-350)
runs `JSON.parse` on the completion content and, on a parse exception,
falls back to a substring-plus-regex recovery.  JSON is embedded as the
value type `JVal` with a recursive-descent recognizer of the JSON grammar
(numbers are kept as their raw lexeme; the analysed fields never use
them).  The recognizer threads fuel to make the recursion structural; the
fuel passed by `jsonParse` exceeds any possible recursion depth (every
fuel-decrementing call follows the consumption of at least one input
character, and at most three decrements follow each character), so fuel
exhaustion never decides a result. -/

inductive JVal where
  | jnull
  | jbool (b : Bool)
  | jnum (raw : String)
  | jstr (s : String)
  | jarr (elems : List JVal)
  | jobj (fields : List (String × JVal))

/-- JSON insignificant whitespace. -/
def jsonWsChar (c : Char) : Bool :=
  c = ' ' || c = '\t' || c = '\n' || c = '\r'

/-- Drop leading JSON whitespace. -/
def skipJsonWs : List Char → List Char
  | [] => []
  | c :: rest => if jsonWsChar c then skipJsonWs rest else c :: rest

/-- Strip an expected literal from the front of the input. -/
def stripPre : List Char → List Char → Option (List Char)
  | [], cs => some cs
  | _ :: _, [] => none
  | p :: ps, c :: cs => if p = c then stripPre ps cs else none

/-- Value of a hexadecimal digit. -/
def hexDigitVal (c : Char) : Option Nat :=
  if '0' ≤ c ∧ c ≤ '9' then some (c.toNat - '0'.toNat)
  else if 'a' ≤ c ∧ c ≤ 'f' then some (c.toNat - 'a'.toNat + 10)
  else if 'A' ≤ c ∧ c ≤ 'F' then some (c.toNat - 'A'.toNat + 10)
  else none

/-- Lex the body of a JSON string, after the opening quote: handles the
escapes of the JSON grammar, rejects raw control characters, and returns
the decoded characters together with the input after the closing quote. -/
def lexJsonString : Nat → List Char → Option (List Char × List Char)
  | 0, _ => none
  | _, [] => none
  | fuel + 1, c :: rest =>
    if c = '"' then some ([], rest)
    else if c = '\\' then
      match rest with
      | [] => none
      | e :: rest2 =>
        if e = '"' || e = '\\' || e = '/' then
          (fun p => (e :: p.1, p.2)) <$> lexJsonString fuel rest2
        else if e = 'n' then (fun p => ('\n' :: p.1, p.2)) <$> lexJsonString fuel rest2
        else if e = 't' then (fun p => ('\t' :: p.1, p.2)) <$> lexJsonString fuel rest2
        else if e = 'r' then (fun p => ('\r' :: p.1, p.2)) <$> lexJsonString fuel rest2
        else if e = 'b' then (fun p => (Char.ofNat 8 :: p.1, p.2)) <$> lexJsonString fuel rest2
        else if e = 'f' then (fun p => (Char.ofNat 12 :: p.1, p.2)) <$> lexJsonString fuel rest2
        else if e = 'u' then
          match rest2 with
          | h1 :: h2 :: h3 :: h4 :: rest3 =>
            match hexDigitVal h1, hexDigitVal h2, hexDigitVal h3, hexDigitVal h4 with
            | some v1, some v2, some v3, some v4 =>
              (fun p => (Char.ofNat (((v1 * 16 + v2) * 16 + v3) * 16 + v4) :: p.1, p.2)) <$>
                lexJsonString fuel rest3
            | _, _, _, _ => none
          | _ => none
        else none
    else if c.toNat < 32 then none
    else (fun p => (c :: p.1, p.2)) <$> lexJsonString fuel rest

/-- Longest leading run of decimal digits. -/
def spanDigits : List Char → List Char × List Char
  | [] => ([], [])
  | c :: rest =>
    if c.isDigit then
      let (d, r) := spanDigits rest
      (c :: d, r)
    else ([], c :: rest)

/-- Integer part of a JSON number: a single zero, or a nonzero digit
followed by digits (JSON forbids leading zeros). -/
def lexIntPart : List Char → Option (List Char × List Char)
  | [] => none
  | c :: rest =>
    if c = '0' then some ([c], rest)
    else if c.isDigit then
      let (d, r) := spanDigits rest
      some (c :: d, r)
    else none

/-- Optional fractional part: a dot followed by at least one digit. -/
def lexFracPart (cs : List Char) : Option (List Char × List Char) :=
  match cs with
  | '.' :: rest =>
    match spanDigits rest with
    | ([], _) => none
    | (d, r) => some ('.' :: d, r)
  | _ => some ([], cs)

/-- Optional exponent part: e or E, optional sign, at least one digit. -/
def lexExpPart (cs : List Char) : Option (List Char × List Char) :=
  match cs with
  | e :: rest =>
    if e = 'e' || e = 'E' then
      let (sgn, rest2) := match rest with
        | s :: r2 => if s = '+' || s = '-' then ([s], r2) else (([] : List Char), s :: r2)
        | [] => ([], [])
      match spanDigits rest2 with
      | ([], _) => none
      | (d, r) => some (e :: (sgn ++ d), r)
    else some ([], e :: rest)
  | [] => some ([], [])

/-- Lex a JSON number, keeping the raw lexeme. -/
def lexJsonNumber (cs : List Char) : Option (List Char × List Char) :=
  let (neg, cs1) := match cs with
    | '-' :: r => ([('-' : Char)], r)
    | _ => (([] : List Char), cs)
  match lexIntPart cs1 with
  | none => none
  | some (ip, cs2) =>
    match lexFracPart cs2 with
    | none => none
    | some (fp, cs3) =>
      match lexExpPart cs3 with
      | none => none
      | some (ep, cs4) => some (neg ++ ip ++ fp ++ ep, cs4)

mutual

/-- Recognize one JSON value; returns it with the remaining input. -/
def parseJsonVal : Nat → List Char → Option (JVal × List Char)
  | 0, _ => none
  | fuel + 1, cs0 =>
    match skipJsonWs cs0 with
    | [] => none
    | '"' :: rest =>
      match lexJsonString (rest.length + 1) rest with
      | some (content, rest2) => some (.jstr (String.mk content), rest2)
      | none => none
    | '[' :: rest =>
      (match skipJsonWs rest with
       | ']' :: rest2 => some (.jarr [], rest2)
       | cs2 => (fun p => (JVal.jarr p.1, p.2)) <$> parseJsonElems fuel cs2)
    | '{' :: rest =>
      (match skipJsonWs rest with
       | '}' :: rest2 => some (.jobj [], rest2)
       | cs2 => (fun p => (JVal.jobj p.1, p.2)) <$> parseJsonFields fuel cs2)
    | 'n' :: rest => (fun r => (JVal.jnull, r)) <$> stripPre "ull".data rest
    | 't' :: rest => (fun r => (JVal.jbool true, r)) <$> stripPre "rue".data rest
    | 'f' :: rest => (fun r => (JVal.jbool false, r)) <$> stripPre "alse".data rest
    | cs =>
      match lexJsonNumber cs with
      | some (raw, rest) => some (.jnum (String.mk raw), rest)
      | none => none

/-- Recognize the elements of a non-empty JSON array body up to the
closing bracket. -/
def parseJsonElems : Nat → List Char → Option (List JVal × List Char)
  | 0, _ => none
  | fuel + 1, cs =>
    match parseJsonVal fuel cs with
    | none => none
    | some (v, rest) =>
      match skipJsonWs rest with
      | ',' :: rest2 => (fun p => (v :: p.1, p.2)) <$> parseJsonElems fuel rest2
      | ']' :: rest2 => some ([v], rest2)
      | _ => none

/-- Recognize the members of a non-empty JSON object body up to the
closing brace. -/
def parseJsonFields : Nat → List Char → Option (List (String × JVal) × List Char)
  | 0, _ => none
  | fuel + 1, cs =>
    match skipJsonWs cs with
    | '"' :: rest =>
      match lexJsonString (rest.length + 1) rest with
      | none => none
      | some (key, rest2) =>
        match skipJsonWs rest2 with
        | ':' :: rest3 =>
          match parseJsonVal fuel rest3 with
          | none => none
          | some (v, rest4) =>
            match skipJsonWs rest4 with
            | ',' :: rest5 =>
              (fun p => ((String.mk key, v) :: p.1, p.2)) <$> parseJsonFields fuel rest5
            | '}' :: rest5 => some ([(String.mk key, v)], rest5)
            | _ => none
        | _ => none
    | _ => none

end

/-- `JSON.parse(content)`: one value, then nothing but whitespace. -/
def jsonParse (s : String) : Option JVal :=
  match parseJsonVal (4 * (s.data.length + 1)) s.data with
  | some (v, rest) => if (skipJsonWs rest).isEmpty then some v else none
  | none => none

/-! ## Response handling of OpenAIService.analyzeMessage (part_002)

Lines 278-350: inside a try block, the content is JSON-parsed and the
result extracted; a JavaScript exception anywhere in that block — the
parse failing, or a property access on a null value — lands in the catch
block, which recovers by substring and regex matching on the raw content.
Property access is embedded by `jget` (undefined, i.e. absent, is `none`);
the `?? null` coalescing maps a JSON null field to `none` as well.  Each
pushed event has `isEvent: true` and is represented by its eight nullable
fields. -/

structure JEvent where
  summary : Option JVal
  title : Option JVal
  date : Option JVal
  time : Option JVal
  location : Option JVal
  description : Option JVal
  startDateISO : Option JVal
  endDateISO : Option JVal

structure JMultiEventResult where
  hasEvents : Bool
  events : List JEvent

/-- Object member lookup with the last duplicate winning, as in the value
returned by `JSON.parse`. -/
def jlookupLast (fields : List (String × JVal)) (k : String) : Option JVal :=
  fields.foldl (fun acc kv => if kv.1 = k then some kv.2 else acc) none

/-- Property access on a parsed value: a member of an object, undefined
on every non-object (access on null is handled separately, as a throw). -/
def jget : JVal → String → Option JVal
  | .jobj fs, k => jlookupLast fs k
  | _, _ => none

/-- The `?? null` coalescing: null and undefined both become `none`. -/
def coalesceNull : Option JVal → Option JVal
  | some .jnull => none
  | v => v

/-- The `=== true` test of the `hasEvents` field. -/
def isTrueBool : Option JVal → Bool
  | some (.jbool true) => true
  | _ => false

/-- Whether a parsed value is the JSON null. -/
def isJNull : JVal → Bool
  | .jnull => true
  | _ => false

/-- One pushed event of the success path: each field read off the array
element with `?? null`. -/
def buildJEvent (e : JVal) : JEvent :=
  ⟨coalesceNull (jget e "summary"), coalesceNull (jget e "title"),
   coalesceNull (jget e "date"), coalesceNull (jget e "time"),
   coalesceNull (jget e "location"), coalesceNull (jget e "description"),
   coalesceNull (jget e "startDateISO"), coalesceNull (jget e "endDateISO")⟩

/-- Whitespace class of the regex `\s` (the characters relevant here). -/
def regexWsChar (c : Char) : Bool :=
  c = ' ' || c = '\t' || c = '\n' || c = '\r' || c.toNat = 11 || c.toNat = 12

/-- Drop leading regex whitespace. -/
def skipRegexWs : List Char → List Char
  | [] => []
  | c :: rest => if regexWsChar c then skipRegexWs rest else c :: rest

/-- The capture `[^"]*"`: characters up to the next double quote, failing
when no closing quote follows. -/
def takeUntilQuote : List Char → Option (List Char)
  | [] => none
  | c :: rest =>
    if c = '"' then some []
    else (fun p => c :: p) <$> takeUntilQuote rest

/-- Attempt of the summary regex at one position: the literal
`"summary":`, then whitespace, then a quoted capture. -/
def matchSummaryAt (cs : List Char) : Option String :=
  match stripPre "\"summary\":".data cs with
  | none => none
  | some rest =>
    match skipRegexWs rest with
    | '"' :: rest2 => (fun p => String.mk p) <$> takeUntilQuote rest2
    | _ => none

/-- First match of the summary regex over the whole content, as
`/"summary":\s*"([^"]*)"/.exec(content)`. -/
def summaryMatchScan : List Char → Option String
  | [] => none
  | c :: rest =>
    match matchSummaryAt (c :: rest) with
    | some s => some s
    | none => summaryMatchScan rest

/-- The single event built by the catch-block recovery, carrying only the
captured summary. -/
def fallbackEvent (s : String) : JEvent :=
  ⟨some (.jstr s), none, none, none, none, none, none, none⟩

/-- The catch-block recovery (lines 317-349): `hasEvents` by substring
test, and a single summary-only event when both the substring test and
the summary regex succeed. -/
def fallbackParse (content : String) : JMultiEventResult :=
  let hasEvents := containsSub "\"hasEvents\": true" content ||
    containsSub "\"hasEvents\":true" content
  match summaryMatchScan content.data with
  | some s => if hasEvents then ⟨true, [fallbackEvent s]⟩ else ⟨false, []⟩
  | none => ⟨false, []⟩

/-- The whole parse-and-extract block of `analyzeMessage` on a completion
content string.  The catch path is taken when `JSON.parse` fails, when the
parsed value is null (so that `parsedResponse.hasEvents` throws), and when
a null element of the events array makes a field access throw mid-loop
(the partially pushed array is discarded). -/
def handleLLMContent (content : String) : JMultiEventResult :=
  match jsonParse content with
  | none => fallbackParse content
  | some .jnull => fallbackParse content
  | some parsed =>
    if isTrueBool (jget parsed "hasEvents") then
      match jget parsed "events" with
      | some (.jarr xs) =>
        if xs.any isJNull then fallbackParse content
        else ⟨true, xs.map buildJEvent⟩
      | _ => ⟨true, []⟩
    else ⟨false, []⟩

/-- The dispatch guard of `processMessageForEvents`: the conjunction of
the two if conditions in front of formatting and sending. -/
def eventDispatchGuard (e : EventDetails) : Bool :=
  e.isEvent && truthy e.summary && truthy e.title && truthy e.startDateISO

/-- Number of dispatched events carrying a given fingerprint. -/
def fpCount (f : Fingerprint) (l : List EventDetails) : Nat :=
  l.countP (fun e => decide (generateEventFingerprint e = f))

/-! # Theorems -/

/-- C2: `generateEventFingerprint` is a pure function of the
lowercased-trimmed title, the startDateISO exactly as given, and the
lowercased-trimmed location (empty placeholder for null fields): two
fingerprints are equal exactly when the normalized triples are equal;
casing or surrounding-whitespace changes of title or location preserve
the fingerprint, while a one-hour shift of startDateISO, a different
title, or a different location changes it, and null optional fields key
as the empty placeholder without error. -/
theorem generateEventFingerprint_normalized :
    (∀ e1 e2 : EventDetails,
      generateEventFingerprint e1 = generateEventFingerprint e2 ↔
        (normToken (e1.title.getD "") = normToken (e2.title.getD "") ∧
         e1.startDateISO.getD "" = e2.startDateISO.getD "" ∧
         normToken (e1.location.getD "") = normToken (e2.location.getD ""))) ∧
    generateEventFingerprint
        ⟨true, some "s", some "Meeting", none, none, some "Cafe", none,
          some "2024-12-25T08:00:00.000Z", none⟩ =
      generateEventFingerprint
        ⟨true, some "s", some "meeting", none, none, some "CAFE", none,
          some "2024-12-25T08:00:00.000Z", none⟩ ∧
    generateEventFingerprint
        ⟨true, some "s", some " Party ", none, none, none, none,
          some "2024-12-25T08:00:00.000Z", none⟩ =
      generateEventFingerprint
        ⟨true, some "s", some "party", none, none, none, none,
          some "2024-12-25T08:00:00.000Z", none⟩ ∧
    generateEventFingerprint
        ⟨true, some "s", some "Party", none, none, some "Cafe", none,
          some "2024-12-25T08:00:00.000Z", none⟩ ≠
      generateEventFingerprint
        ⟨true, some "s", some "Party", none, none, some "Cafe", none,
          some "2024-12-25T09:00:00.000Z", none⟩ ∧
    generateEventFingerprint
        ⟨true, some "s", some "Event A", none, none, some "Cafe", none,
          some "2024-12-25T08:00:00.000Z", none⟩ ≠
      generateEventFingerprint
        ⟨true, some "s", some "Event B", none, none, some "Cafe", none,
          some "2024-12-25T08:00:00.000Z", none⟩ ∧
    generateEventFingerprint
        ⟨true, some "s", some "Party", none, none, some "Location A", none,
          some "2024-12-25T08:00:00.000Z", none⟩ ≠
      generateEventFingerprint
        ⟨true, some "s", some "Party", none, none, some "Location B", none,
          some "2024-12-25T08:00:00.000Z", none⟩ ∧
    generateEventFingerprint
        ⟨true, none, none, none, none, none, none, none, none⟩ =
      ("", "", "") := by
  refine ⟨?_, by decide, by decide, by decide, by decide, by decide, by decide⟩
  intro e1 e2
  simp [generateEventFingerprint, Prod.ext_iff]

/-- C3: `isPhotoFlood` is true exactly when the chat's pruned 30-second
window holds at least 3 records of which at least 70 percent lack a
caption; concrete cases: 3 records without captions give true, 3 with
captions give false, 3 without plus 1 with (75 percent) give true,
2 without plus 2 with (50 percent) give false, 2 without captions alone
give false, and a record older than 30 seconds is excluded from the
decision. -/
theorem isPhotoFlood_threshold :
    (∀ (st : FloodState) (chatId : String) (now : Int),
      isPhotoFlood st chatId now = true ↔
        (3 ≤ (pruneWindow now (st chatId)).length ∧
         7 * (pruneWindow now (st chatId)).length ≤
           10 * ((pruneWindow now (st chatId)).filter (fun r => !r.hasCaption)).length)) ∧
    isPhotoFlood (trackImageMessage (trackImageMessage (trackImageMessage
        (fun _ => []) "c" false 5) "c" false 5) "c" false 5) "c" 5 = true ∧
    isPhotoFlood (trackImageMessage (trackImageMessage (trackImageMessage
        (fun _ => []) "c" true 5) "c" true 5) "c" true 5) "c" 5 = false ∧
    isPhotoFlood (trackImageMessage (trackImageMessage (trackImageMessage
        (trackImageMessage (fun _ => []) "c" false 5) "c" false 5) "c" false 5)
        "c" true 5) "c" 5 = true ∧
    isPhotoFlood (trackImageMessage (trackImageMessage (trackImageMessage
        (trackImageMessage (fun _ => []) "c" false 5) "c" false 5) "c" true 5)
        "c" true 5) "c" 5 = false ∧
    isPhotoFlood (trackImageMessage (trackImageMessage
        (fun _ => []) "c" false 5) "c" false 5) "c" 5 = false ∧
    isPhotoFlood (fun c => if c = "c" then
        [⟨100000 - 31000, false⟩, ⟨100000, false⟩, ⟨100000, false⟩] else [])
        "c" 100000 = false := by
  refine ⟨?_, by decide, by decide, by decide, by decide, by decide, by decide⟩
  intro st chatId now
  simp [isPhotoFlood]

/-- C8: the per-chat history is bounded to the last 5 messages — every
`addMessageToHistory` result has length at most 5, and folding the
operation over any arrival sequence from the empty history yields exactly
the last 5 messages in arrival order. -/
theorem addMessageToHistory_lastFive :
    (∀ (history : List String) (message : String),
      (addMessageToHistory history message).length ≤ maxHistoryLength) ∧
    (∀ msgs : List String,
      List.foldl addMessageToHistory [] msgs =
        msgs.drop (msgs.length - maxHistoryLength)) := by
  constructor
  · intro history message
    simp only [addMessageToHistory]
    split
    · simp only [List.length_drop]
      omega
    · omega
  · intro msgs
    induction msgs using List.reverseRecOn with
    | nil => simp
    | append_singleton l m ih =>
      rw [List.foldl_append, List.foldl_cons, List.foldl_nil, ih]
      simp only [addMessageToHistory, maxHistoryLength, List.length_append,
        List.length_drop, List.length_singleton]
      by_cases h5 : l.length ≤ 4
      · rw [if_neg (by omega)]
        rw [Nat.sub_eq_zero_of_le (show l.length ≤ 5 by omega),
          Nat.sub_eq_zero_of_le (show l.length + 1 ≤ 5 by omega)]
        simp
      · rw [if_pos (by omega)]
        have h1 : l.length - (l.length - 5) + 1 - 5 = 1 := by omega
        have h2 : l.length + 1 - 5 = l.length - 4 := by omega
        rw [h1, h2]
        rw [List.drop_append_of_le_length
          (show 1 ≤ (l.drop (l.length - 5)).length by
            rw [List.length_drop]; omega)]
        rw [List.drop_drop]
        have h3 : l.length - 5 + 1 = l.length - 4 := by omega
        rw [h3]
        rw [List.drop_append_of_le_length (show l.length - 4 ≤ l.length by omega)]

/-- C4: `fetchGroupMetadataWithRetry` with maxRetries 3 returns the
cached descriptor without fetching when one is present; on a miss it
fetches, retrying on a rate-limit error (data 429 or a message containing
the rate-limit pattern) after backoff delays of 2000 then 4000 ms for up
to 3 attempts; a non-rate-limit error returns null after a single
attempt; persistent rate limiting exhausts the 3 attempts and returns
null rather than throwing. -/
theorem fetchGroupMetadataWithRetry_policy :
    ∀ (m : GroupMetadata) (oracle : Nat → FetchOutcome) (d : Option Nat)
      (msg : String),
      fetchGroupMetadataWithRetry (some m) true oracle 3 = ⟨some m, [], 0⟩ ∧
      fetchGroupMetadataWithRetry none true
          (fun i => if i < 2 then .failure (some 429) "" else .success m) 3 =
        ⟨some m, [2000, 4000], 3⟩ ∧
      fetchGroupMetadataWithRetry none true
          (fun i => if i < 2 then .failure none "rate-overlimit exceeded"
            else .success m) 3 =
        ⟨some m, [2000, 4000], 3⟩ ∧
      (isRateLimitErr d msg = false →
        fetchGroupMetadataWithRetry none true (fun _ => .failure d msg) 3 =
          ⟨none, [], 1⟩) ∧
      fetchGroupMetadataWithRetry none true (fun _ => .failure (some 429) "") 3 =
        ⟨none, [2000, 4000], 3⟩ := by
  intro m oracle d msg
  refine ⟨rfl, rfl, rfl, ?_, rfl⟩
  intro h
  show fetchRetryAux none true 3 (fun _ => .failure d msg) 0 (3 + 1) = _
  simp only [fetchRetryAux, h]
  norm_num

/-- C4 witness: the general non-rate-limit conjunct applied to a concrete
error with neither the 429 data code nor the rate-limit message. -/
theorem fetchGroupMetadataWithRetry_policy_witness :
    fetchGroupMetadataWithRetry none true
        (fun _ => .failure (some 500) "server error") 3 = ⟨none, [], 1⟩ :=
  (fetchGroupMetadataWithRetry_policy ⟨"g", "s"⟩ (fun _ => .success ⟨"g", "s"⟩)
    (some 500) "server error").2.2.2.1 (by decide)

/-- C6: `loadCacheFromFile` loads exactly the persisted entries whose
`savedAt` lies strictly within 24 hours of `now`; an entry saved 25 hours
ago is discarded while one saved 1 hour ago is loaded and retrievable via
`get`; a missing or unparseable file yields the empty cache. -/
theorem loadCacheFromFile_maxAge :
    ∀ (now : Int) (key : String) (m : GroupMetadata)
      (entries : List (String × PersistedCacheData)),
      (∀ (k : String) (g : GroupMetadata),
        (k, g) ∈ loadCacheFromFile now (some entries) ↔
          ∃ savedAt : Int,
            (k, ⟨g, savedAt⟩) ∈ entries ∧ now - savedAt < maxPersistedAgeMs) ∧
      loadCacheFromFile now none = [] ∧
      loadCacheFromFile now (some [(key, ⟨m, now - 25 * 3600000⟩)]) = [] ∧
      cacheGet (loadCacheFromFile now (some [(key, ⟨m, now - 3600000⟩)])) key =
        some m := by
  intro now key m entries
  refine ⟨?_, rfl, ?_, ?_⟩
  · intro k g
    simp only [loadCacheFromFile, List.mem_map, List.mem_filter,
      decide_eq_true_eq]
    constructor
    · rintro ⟨⟨k2, g2, sa⟩, ⟨hmem, hage⟩, heq⟩
      obtain ⟨rfl, rfl⟩ := Prod.mk.injEq .. ▸ heq
      exact ⟨sa, hmem, hage⟩
    · rintro ⟨sa, hmem, hage⟩
      exact ⟨(k, ⟨g, sa⟩), ⟨hmem, hage⟩, rfl⟩
  · simp [loadCacheFromFile, maxPersistedAgeMs]
  · simp [loadCacheFromFile, maxPersistedAgeMs, cacheGet]

/-- C10: the allowlist gate of `analyzeMessage` — the LLM is invoked and
its result returned exactly when the allowlist is empty or some
configured name occurs as a substring of the chat name (the chat id
standing in when the name is empty); otherwise the empty result is
returned without invoking the LLM. -/
theorem analyzeMessageGate_allowlist :
    ∀ (allowed : List String) (chatId chatName : String)
      (llm : MultiEventResult),
      (analyzeMessageGate allowed chatId chatName llm = (llm, true) ↔
        (allowed = [] ∨ ∃ name ∈ allowed,
          containsSub name (if chatName = "" then chatId else chatName) = true)) ∧
      (analyzeMessageGate allowed chatId chatName llm = (llm, true) ∨
        analyzeMessageGate allowed chatId chatName llm = (⟨false, []⟩, false)) := by
  intro allowed chatId chatName llm
  have key : ∀ target : String, isChatAllowed allowed target = true ↔
      (allowed = [] ∨ ∃ name ∈ allowed, containsSub name target = true) := by
    intro target
    simp only [isChatAllowed]
    rcases eq_or_ne allowed [] with h | h
    · subst h
      simp
    · rw [if_neg (by simpa [List.length_eq_zero] using h)]
      simp [List.any_eq_true, h]
  constructor
  · constructor
    · intro heq
      by_contra hnot
      have hfalse :
          isChatAllowed allowed (if chatName = "" then chatId else chatName) = false := by
        rcases hb : isChatAllowed allowed (if chatName = "" then chatId else chatName) with
          _ | _
        · rfl
        · exact absurd ((key _).mp hb) hnot
      have hskip : analyzeMessageGate allowed chatId chatName llm = (⟨false, []⟩, false) := by
        simp [analyzeMessageGate, hfalse]
      rw [hskip] at heq
      exact absurd (congrArg Prod.snd heq) (by simp)
    · intro hor
      have htrue := (key _).mpr hor
      simp [analyzeMessageGate, htrue]
  · rcases hb : isChatAllowed allowed (if chatName = "" then chatId else chatName) with
      _ | _
    · exact Or.inr (by simp [analyzeMessageGate, hb])
    · exact Or.inl (by simp [analyzeMessageGate, hb])

/-- Helper: the content-and-marker tail of the intake gate if-chain,
expressed as a proposition. -/
theorem gateTail_iff (t : String) (img : Bool) :
    (if isBlankText t && !img then false
     else if eventSummaryMarkers.any (fun m => containsSub m t) then false
     else true) = true ↔
      ((isBlankText t = false ∨ img = true) ∧
        ∀ marker ∈ eventSummaryMarkers, containsSub marker t = false) := by
  cases hB : isBlankText t <;> cases img <;>
    cases hAny : eventSummaryMarkers.any (fun m => containsSub m t) <;>
      simp_all [List.any_eq_false, List.any_eq_true]

/-- C7: a message reaches the LLM analysis step exactly when it has
content, its chat is a group with a foreign sender or the self-chat
(self-authored group messages are rejected, self-chat messages are
allowed), its extracted text is non-blank or an image payload is present,
and the text contains none of the event-summary markers; failing any
filter stops processing. -/
theorem reachesAnalysis_filters :
    ∀ msg : WAMessage,
      reachesAnalysis msg = true ↔
        (msg.hasMessage = true ∧
         ∃ chatId, msg.remoteJid = some chatId ∧
           ((isJidGroup chatId = true ∧ msg.fromMe = false) ∨
            (isJidGroup chatId = false ∧ msg.fromMe = true)) ∧
           (isBlankText (extractedText msg.content) = false ∨
             extractedImage msg.content = true) ∧
           (∀ marker ∈ eventSummaryMarkers,
             containsSub marker (extractedText msg.content) = false)) := by
  intro msg
  obtain ⟨hm, jid, fm, c⟩ := msg
  cases hm
  · simp [reachesAnalysis]
  · cases jid with
    | none => simp [reachesAnalysis]
    | some chatId =>
      cases hG : isJidGroup chatId <;> cases fm <;> cases c <;>
        simp_all [reachesAnalysis, extractedText, extractedImage, gateTail_iff,
          List.any_eq_false, isBlankText]

/-- Helper: every event collected by the dispatch loop, in the formatted
list and in the sent list, satisfies the dispatch guard. -/
theorem processEventsLoop_all (tg : Option String) (send : Bool)
    (events : List EventDetails) :
    ((processEventsLoop tg send events).1.all eventDispatchGuard = true) ∧
    ((processEventsLoop tg send events).2.all eventDispatchGuard = true) := by
  induction events with
  | nil => simp [processEventsLoop]
  | cons e rest ih =>
    rcases hres : processEventsLoop tg send rest with ⟨fmt, sent⟩
    rw [hres] at ih
    obtain ⟨ih1, ih2⟩ := ih
    simp only [processEventsLoop, hres]
    cases h1 : e.isEvent && truthy e.summary
    · constructor <;> simp_all
    · cases h2 : truthy e.title && truthy e.startDateISO
      · constructor <;> simp_all
      · have hg : eventDispatchGuard e = true := by
          simp only [eventDispatchGuard]
          simp only [Bool.and_eq_true] at h1 h2
          simp [h1.1, h1.2, h2.1, h2.2]
        cases hsend : send && tg.isSome <;> simp_all

/-- C9: in the post-analysis dispatch loop, an event is formatted and sent
only if `isEvent` holds, `summary` is truthy, and both `title` and
`startDateISO` are non-null and non-empty; an analysed event missing
`title` or `startDateISO` is silently dropped — nothing is formatted and
nothing is sent for it — while a complete event is both formatted and
sent. -/
theorem processAnalysisResult_dispatchGuard :
    ∀ (targetGroupId : Option String) (sendToWhatsApp : Bool)
      (analysis : MultiEventResult),
      ((processAnalysisResult targetGroupId sendToWhatsApp analysis).1.all
        eventDispatchGuard = true) ∧
      ((processAnalysisResult targetGroupId sendToWhatsApp analysis).2.all
        eventDispatchGuard = true) ∧
      processAnalysisResult (some "t@g.us") true
        ⟨true, [⟨true, some "s", none, none, none, none, none,
          some "2024-12-25T08:00:00.000Z", none⟩]⟩ = ([], []) ∧
      processAnalysisResult (some "t@g.us") true
        ⟨true, [⟨true, some "s", some "Title", none, none, none, none, none,
          none⟩]⟩ = ([], []) ∧
      processAnalysisResult (some "t@g.us") true
        ⟨true, [⟨true, some "s", some "Title", none, none, none, none,
          some "2024-12-25T08:00:00.000Z", none⟩]⟩ =
        ([⟨true, some "s", some "Title", none, none, none, none,
          some "2024-12-25T08:00:00.000Z", none⟩],
         [⟨true, some "s", some "Title", none, none, none, none,
          some "2024-12-25T08:00:00.000Z", none⟩]) := by
  intro tg send analysis
  refine ⟨?_, ?_, by decide, by decide, by decide⟩
  · simp only [processAnalysisResult]
    split
    · exact (processEventsLoop_all tg send analysis.events).1
    · simp
  · simp only [processAnalysisResult]
    split
    · exact (processEventsLoop_all tg send analysis.events).2
    · simp

/-- Helper: unfolding of `fpCount` on a cons cell. -/
theorem fpCount_cons (f : Fingerprint) (e : EventDetails) (l : List EventDetails) :
    fpCount f (e :: l) =
      fpCount f l + (if generateEventFingerprint e = f then 1 else 0) := by
  simp [fpCount, List.countP_cons]

/-- Helper invariant of the dedup-guarded loop for a fixed fingerprint:
counting the occurrences of the fingerprint among the store (as zero or
one) and the dispatched events never exceeds one, stored fingerprints stay
stored, and a dispatched fingerprint ends up stored. -/
theorem dedupDispatchLoop_fp_inv (f : Fingerprint) :
    ∀ (events : List EventDetails) (store : List Fingerprint),
      (fpCount f (dedupDispatchLoop store events).2 +
        (if f ∈ store then 1 else 0) ≤ 1) ∧
      (f ∈ store → f ∈ (dedupDispatchLoop store events).1) ∧
      (1 ≤ fpCount f (dedupDispatchLoop store events).2 →
        f ∈ (dedupDispatchLoop store events).1) := by
  intro events
  induction events with
  | nil =>
    intro store
    refine ⟨?_, fun h => h, ?_⟩
    · simp only [dedupDispatchLoop, fpCount, List.countP_nil]
      split <;> omega
    · intro h
      simp [dedupDispatchLoop, fpCount] at h
  | cons e rest ih =>
    intro store
    by_cases hc : (e.isEvent && truthy e.summary && truthy e.title &&
        truthy e.startDateISO && !isEventAlreadyCreated store e) = true
    · have hnotin : generateEventFingerprint e ∉ store := by
        have h2 := ((Bool.and_eq_true _ _).mp hc).2
        simpa [isEventAlreadyCreated] using h2
      have hmark : markEventAsCreated store e =
          store ++ [generateEventFingerprint e] := by
        simp [markEventAsCreated, isEventAlreadyCreated, hnotin]
      have hunfold : dedupDispatchLoop store (e :: rest) =
          ((dedupDispatchLoop (markEventAsCreated store e) rest).1,
            e :: (dedupDispatchLoop (markEventAsCreated store e) rest).2) := by
        simp only [dedupDispatchLoop]
        rw [if_pos hc]
      obtain ⟨ihc, ihmem, ihdisp⟩ := ih (markEventAsCreated store e)
      have hmem2 : ∀ g : Fingerprint, g ∈ markEventAsCreated store e ↔
          (g ∈ store ∨ g = generateEventFingerprint e) := by
        intro g
        rw [hmark]
        simp
      refine ⟨?_, ?_, ?_⟩
      · rw [hunfold]
        dsimp only
        rw [fpCount_cons]
        by_cases hfe : generateEventFingerprint e = f
        · have hfin : f ∈ markEventAsCreated store e :=
            (hmem2 f).mpr (Or.inr hfe.symm)
          have hfnotstore : f ∉ store := hfe ▸ hnotin
          rw [if_pos hfin] at ihc
          rw [if_pos hfe, if_neg hfnotstore]
          omega
        · have hiff : f ∈ markEventAsCreated store e ↔ f ∈ store := by
            rw [hmem2 f]
            exact or_iff_left (fun h => hfe h.symm)
          rw [if_neg hfe]
          by_cases hst : f ∈ store
          · rw [if_pos (hiff.mpr hst)] at ihc
            rw [if_pos hst]
            omega
          · rw [if_neg (fun h => hst (hiff.mp h))] at ihc
            rw [if_neg hst]
            omega
      · intro hst
        rw [hunfold]
        exact ihmem ((hmem2 f).mpr (Or.inl hst))
      · intro hge
        rw [hunfold] at hge ⊢
        dsimp only at hge ⊢
        by_cases hfe : generateEventFingerprint e = f
        · exact ihmem ((hmem2 f).mpr (Or.inr hfe.symm))
        · rw [fpCount_cons, if_neg hfe] at hge
          exact ihdisp (by omega)
    · have hunfold : dedupDispatchLoop store (e :: rest) =
          dedupDispatchLoop store rest := by
        simp only [dedupDispatchLoop]
        rw [if_neg hc]
      rw [hunfold]
      exact ih store

/-- Helper invariant of the dedup-guarded run across a message sequence:
the same store-plus-dispatch bound as for a single loop pass, with the
store threaded from message to message. -/
theorem dedupDispatchRun_fp_inv (f : Fingerprint) :
    ∀ (batches : List (List EventDetails)) (store : List Fingerprint),
      (fpCount f (dedupDispatchRun store batches).2 +
        (if f ∈ store then 1 else 0) ≤ 1) ∧
      (f ∈ store → f ∈ (dedupDispatchRun store batches).1) ∧
      (1 ≤ fpCount f (dedupDispatchRun store batches).2 →
        f ∈ (dedupDispatchRun store batches).1) := by
  intro batches
  induction batches with
  | nil =>
    intro store
    refine ⟨?_, fun h => h, ?_⟩
    · simp only [dedupDispatchRun, fpCount, List.countP_nil]
      split <;> omega
    · intro h
      simp [dedupDispatchRun, fpCount] at h
  | cons batch batches ih =>
    intro store
    obtain ⟨hl1, hl2, hl3⟩ := dedupDispatchLoop_fp_inv f batch store
    obtain ⟨ihc, ihmem, ihdisp⟩ := ih (dedupDispatchLoop store batch).1
    have hcount : fpCount f (dedupDispatchRun store (batch :: batches)).2 =
        fpCount f (dedupDispatchLoop store batch).2 +
          fpCount f (dedupDispatchRun (dedupDispatchLoop store batch).1 batches).2 := by
      simp only [dedupDispatchRun]
      simp [fpCount, List.countP_append]
    have hfst : (dedupDispatchRun store (batch :: batches)).1 =
        (dedupDispatchRun (dedupDispatchLoop store batch).1 batches).1 := by
      simp only [dedupDispatchRun]
    refine ⟨?_, ?_, ?_⟩
    · rw [hcount]
      by_cases hst : f ∈ store
      · rw [if_pos hst]
        rw [if_pos hst] at hl1
        rw [if_pos (hl2 hst)] at ihc
        omega
      · rw [if_neg hst]
        rw [if_neg hst] at hl1
        by_cases hmid : f ∈ (dedupDispatchLoop store batch).1
        · rw [if_pos hmid] at ihc
          by_cases hone : 1 ≤ fpCount f (dedupDispatchLoop store batch).2
          · omega
          · omega
        · rw [if_neg hmid] at ihc
          have hzero : fpCount f (dedupDispatchLoop store batch).2 = 0 := by
            by_contra hnz
            exact hmid (hl3 (by omega))
          omega
    · intro hst
      rw [hfst]
      exact ihmem (hl2 hst)
    · intro hge
      rw [hfst]
      rw [hcount] at hge
      by_cases hone : 1 ≤ fpCount f (dedupDispatchLoop store batch).2
      · exact ihmem (hl3 hone)
      · exact ihdisp (by omega)

/-- C1: over any sequence of processed messages, two analysed events with
the same `generateEventFingerprint` produce at most one external dispatch
between them — the run threads the dedup store through every
post-analysis pass, and the number of dispatched events carrying any
fixed fingerprint never exceeds one, from any starting store. -/
theorem dedupDispatch_at_most_once :
    ∀ (store : List Fingerprint) (batches : List (List EventDetails))
      (f : Fingerprint),
      fpCount f (dedupDispatchRun store batches).2 ≤ 1 := by
  intro store batches f
  have h := (dedupDispatchRun_fp_inv f batches store).1
  by_cases hst : f ∈ store
  · rw [if_pos hst] at h
    omega
  · rw [if_neg hst] at h
    omega

/-- C5 counterexample: a completion content that fails JSON parsing (an
unterminated object) yet contains the literal hasEvents marker and a
summary field; the catch-block recovery of `analyzeMessage` then reports
a detected event instead of the empty result, refuting the claim that
every malformed response yields `hasEvents: false` with no events. -/
theorem malformedResponse_counterexample :
    jsonParse "\x7b\"hasEvents\": true, \"summary\": \"x\"" = none ∧
    (handleLLMContent "\x7b\"hasEvents\": true, \"summary\": \"x\"").hasEvents =
      true ∧
    (handleLLMContent "\x7b\"hasEvents\": true, \"summary\": \"x\"").events.length =
      1 :=
  ⟨rfl, rfl, rfl⟩

/-- C5 (amended): when the content fails to parse as JSON, the analysis
result is the empty `hasEvents: false, events: []` whenever the content
lacks the literal hasEvents markers, and in every parse-failure case the
result is either the empty result or a single summary-only fallback
event recovered by the regex; no exception propagates. -/
theorem malformedResponse_fallback :
    ∀ content : String, jsonParse content = none →
      ((containsSub "\"hasEvents\": true" content = false →
        containsSub "\"hasEvents\":true" content = false →
        handleLLMContent content = ⟨false, []⟩) ∧
       (handleLLMContent content = ⟨false, []⟩ ∨
        ∃ s : String, handleLLMContent content = ⟨true, [fallbackEvent s]⟩)) := by
  intro content h
  have hfb : handleLLMContent content = fallbackParse content := by
    unfold handleLLMContent
    rw [h]
  constructor
  · intro h1 h2
    rw [hfb]
    simp only [fallbackParse, h1, h2, Bool.or_self]
    cases hs : summaryMatchScan content.data <;> simp [hs]
  · rw [hfb]
    simp only [fallbackParse]
    cases hs : summaryMatchScan content.data with
    | none => exact Or.inl (by simp [hs])
    | some s =>
      cases hhe : (containsSub "\"hasEvents\": true" content ||
          containsSub "\"hasEvents\":true" content)
      · exact Or.inl (by simp [hs, hhe])
      · exact Or.inr ⟨s, by simp [hs, hhe]⟩

/-- C5 witness: the amended theorem applied to concrete unparseable
content free of the fallback markers. -/
theorem malformedResponse_fallback_witness :
    jsonParse "garbled response" = none ∧
    handleLLMContent "garbled response" = ⟨false, []⟩ :=
  ⟨rfl, (malformedResponse_fallback "garbled response" rfl).1 rfl rfl⟩

end WhatsappMe
